import Mathlib

/-!
# Verification of the rwf job scheduler core and HTTP request reader

Shallow embedding of `src/rum/src/job/clock.rs` (the `ScheduledJob` and
`Clock` types with `Clock::run`) and of `src/rum/src/http/request.rs`
(`Request::read` and the `Request` accessors), together with theorems
settling the specification claims about them.

The asynchronous clock loop is embedded as a deterministic state machine:
one `Clock.step` is one iteration of the `loop` in `Clock::run` (await the
tick, capture `now`, clone the job list, spawn a dispatch unit).  Each
spawned dispatch unit is recorded together with the trace of events its
body produces: a due-ness evaluation event for every job, a run event for
every due job carrying the job outcome, and a log event for every failed
run (the `error!` call).  Time is supplied by an ambient time source
`Nat → Timestamp` giving the instant at which each tick fires.
-/

namespace Rwf

/-- `time::OffsetDateTime`, modelled as an abstract instant. -/
abbrev Timestamp := Int

/-- `serde_json::Value`, the opaque structured job payload.  None of the
claims inspects the payload, so it is modelled as its serialized text. -/
abbrev JsonValue := String

/-- Modelled from the spec: `rum::job::Error` (`JobError`), the typed failure
returned by a job executor.  Its definition is not under `src/`; the spec
only requires a failure detail, modelled as a message. -/
structure JobError where
  message : String
deriving DecidableEq, Repr

/-- Modelled from the spec: the `Cron` schedule predicate.  Its definition is
not under `src/`; per the spec it is an opaque, pure, total, side-effect-free
function from timestamp to boolean, constructed once at registration. -/
structure Cron where
  fires : Timestamp → Bool

/-- Modelled from the spec: `Cron::should_run`, evaluation of the schedule
predicate at an instant. -/
def Cron.should_run (c : Cron) (t : Timestamp) : Bool :=
  c.fires t

/-- Modelled from the spec: `dyn Job`, the opaque asynchronous executor with
its diagnostic name.  `execute_async` takes the payload and returns success
or a `JobError`; the suspension of the async call is not observable in this
embedding, only its outcome. -/
structure Job where
  execute_async : JsonValue → Except JobError Unit
  job_name : String

/-- `JobHandler` (from `rum::job`): wraps a boxed `dyn Job`. -/
structure JobHandler where
  job : Job

/-- `ScheduledJob` (clock.rs): binds one job handler to its arguments and
its cron predicate. -/
structure ScheduledJob where
  job : JobHandler
  args : JsonValue
  cron : Cron

/-- `ScheduledJob::schedule`: invoke the executor with a clone of the bound
arguments. -/
def ScheduledJob.schedule (s : ScheduledJob) : Except JobError Unit :=
  s.job.job.execute_async s.args

/-- `ScheduledJob::should_run`: delegate to the cron predicate. -/
def ScheduledJob.should_run (s : ScheduledJob) (t : Timestamp) : Bool :=
  s.cron.should_run t

/-- `ScheduledJob::job`: access the boxed `dyn Job` (used by `Clock::run`
for the diagnostic name). -/
def ScheduledJob.jobRef (s : ScheduledJob) : Job :=
  s.job.job

instance : DecidableEq (Except JobError Unit) := fun a b =>
  match a, b with
  | Except.ok (), Except.ok () => isTrue rfl
  | Except.error e, Except.error f =>
      if h : e = f then isTrue (by rw [h]) else isFalse (fun hc => h (by cases hc; rfl))
  | Except.ok (), Except.error _ => isFalse (fun hc => Except.noConfusion hc)
  | Except.error _, Except.ok () => isFalse (fun hc => Except.noConfusion hc)

/-- One observable event inside a tick's dispatch unit:
`eval i t d` is the evaluation `jobs[i].should_run(&t) = d`;
`run i r` is the completed call `jobs[i].schedule().await` with outcome `r`;
`log i name err` is the `error!("job {} failed to schedule ...")` report to
the diagnostics sink, tagged with the job's diagnostic name. -/
inductive TickEvent where
  | eval (idx : Nat) (at_ : Timestamp) (due : Bool)
  | run (idx : Nat) (result : Except JobError Unit)
  | log (idx : Nat) (name : String) (err : JobError)
deriving DecidableEq, Repr

/-- The body of the spawned task in `Clock::run`, as a trace of events,
starting at list index `i`:
`for job in jobs.iter() { if job.should_run(&now) { match job.schedule().await
{ Ok(_) => (), Err(err) => error!(...) } } }`.
Each job is evaluated against the single captured `now`; a due job is run to
completion before the loop moves on; a failed run is caught and logged and
the loop continues. -/
def dispatchFrom (now : Timestamp) : Nat → List ScheduledJob → List TickEvent
  | _, [] => []
  | i, job :: rest =>
      TickEvent.eval i now (job.should_run now) ::
        ((if job.should_run now then
            TickEvent.run i job.schedule ::
              (match job.schedule with
               | Except.ok _ => []
               | Except.error e => [TickEvent.log i job.jobRef.job_name e])
          else []) ++ dispatchFrom now (i + 1) rest)

/-- The full trace of one tick's dispatch unit over the whole job list. -/
def dispatchTick (now : Timestamp) (jobs : List ScheduledJob) : List TickEvent :=
  dispatchFrom now 0 jobs

/-- One spawned dispatch unit: the captured timestamp, the cloned (shared)
job list handed to the task, and the trace its body produces. -/
structure DispatchUnit where
  now : Timestamp
  jobs : List ScheduledJob
  trace : List TickEvent

/-- `Clock` (clock.rs): owns the shared, read-only job list
(`jobs: Arc<Vec<ScheduledJob>>`). -/
structure Clock where
  jobs : List ScheduledJob

/-- The state of the `Clock::run` loop: the clock itself, how many ticks
have fired, the dispatch units spawned so far, and whether `run` has
returned (it never does: no code path sets this). -/
structure ClockState where
  clock : Clock
  tick : Nat
  spawned : List DispatchUnit
  returned : Option Unit

/-- The initial state of `Clock::run`. -/
def ClockState.init (c : Clock) : ClockState :=
  { clock := c, tick := 0, spawned := [], returned := none }

/-- One iteration of the `loop` in `Clock::run`:
`clock.tick().await; let now = OffsetDateTime::now_utc();
let jobs = self.jobs.clone(); tokio::spawn(async move { ... });`.
The time source `ts` gives the instant at which tick number `s.tick` fires.
The iteration spawns the dispatch unit and immediately proceeds; nothing in
the new state depends on the unit's execution, and no branch returns. -/
def Clock.step (ts : Nat → Timestamp) (s : ClockState) : ClockState :=
  let now := ts s.tick
  let jobs := s.clock.jobs
  { s with
      tick := s.tick + 1
      spawned := s.spawned ++ [⟨now, jobs, dispatchTick now jobs⟩] }

/-- `Clock::run` observed after `n` loop iterations. -/
def Clock.run (c : Clock) (ts : Nat → Timestamp) : Nat → ClockState
  | 0 => ClockState.init c
  | n + 1 => Clock.step ts (Clock.run c ts n)

/-- The indices at which jobs are due at `now`, in list order, starting the
count at `i`: the due-set of a tick as a pure function of the captured
timestamp and the job list. -/
def dueIndicesFrom (now : Timestamp) : Nat → List ScheduledJob → List Nat
  | _, [] => []
  | i, job :: rest =>
      (if job.should_run now then [i] else []) ++ dueIndicesFrom now (i + 1) rest

/-- The due-set of a tick, as indices into the job list. -/
def dueIndices (now : Timestamp) (jobs : List ScheduledJob) : List Nat :=
  dueIndicesFrom now 0 jobs

/-- Project a run event to its job index. -/
def runIdx : TickEvent → Option Nat
  | TickEvent.run i _ => some i
  | _ => none

/-- The job indices of the run events of a trace, in trace order. -/
def runIndices (tr : List TickEvent) : List Nat :=
  tr.filterMap runIdx

/-- Whether an event is a due-ness evaluation. -/
def TickEvent.isEval : TickEvent → Bool
  | TickEvent.eval _ _ _ => true
  | _ => false

/-- Whether an event is a completed job run. -/
def TickEvent.isRun : TickEvent → Bool
  | TickEvent.run _ _ => true
  | _ => false

/-- Whether every due-ness evaluation of a trace completes before any run
begins: from the first run event on, no evaluation event occurs. -/
def allEvalsPrecedeAllRuns (tr : List TickEvent) : Bool :=
  (tr.dropWhile (fun e => !e.isRun)).all (fun e => !e.isEval)

/-!
## HTTP request intake (`src/rum/src/http/request.rs`)

`Request::read` consumes a byte stream: `Head::read` parses the head and
leaves the rest of the stream, then exactly `content_length` body bytes are
read with `read_exact`.  `Head` and `Head::read` live outside `src/`, so the
embedding takes the result of the head phase as input: either the head-read
error, or the parsed head together with the bytes remaining after the head.
Bytes are modelled as `Nat` (their values are only moved, never computed
with). -/

/-- A byte of the stream. -/
abbrev Byte := Nat

/-- Modelled from the spec: `rum::http::Error`.  Its definition is not under
`src/`; `Request::read` only constructs `Error::MalformedRequest(msg)`, and
other variants (such as head-parse failures) are collapsed into `other`. -/
inductive HttpError where
  | malformedRequest (msg : String)
  | other (msg : String)
deriving DecidableEq, Repr

/-- Modelled from the spec: the cookie set extracted from the head
(`head.cookies()`), opaque to `Request::read`. -/
abbrev Cookies := List (String × String)

/-- Modelled from the spec: the parsed request `Head`, exposing the declared
`Content-Length` (absent when the header is missing) and the cookies.  Its
definition is not under `src/`. -/
structure Head where
  content_length : Option Nat
  cookies : Cookies
deriving DecidableEq, Repr

/-- `Inner` (request.rs): the head, the fully loaded body, and the cookies. -/
structure Inner where
  head : Head
  body : List Byte
  cookies : Cookies
deriving DecidableEq, Repr

/-- `Request` (request.rs): the request with its optional path parameters
(never set by `read`). -/
structure Request where
  inner : Inner
  params : Option (List (String × String))
deriving DecidableEq, Repr

/-- `tokio::io::AsyncReadExt::read_exact` into a buffer of length `n`:
succeeds with the buffer filled by the next `n` stream bytes iff the stream
holds at least `n` bytes, and consumes exactly those bytes. -/
def read_exact (n : Nat) (stream : List Byte) : Option (List Byte × List Byte) :=
  if n ≤ stream.length then some (stream.take n, stream.drop n) else none

/-- `Request::read`: after the head phase (`Head::read(&mut stream).await?`,
whose outcome is the argument), take the declared content length with
`head.content_length().unwrap_or(0)`, read exactly that many body bytes,
mapping a short read to `Error::MalformedRequest("incorrect content length")`,
and assemble the `Request`.  The unread remainder of the stream is returned
alongside. -/
def Request.read (headResult : Except HttpError (Head × List Byte)) :
    Except HttpError (Request × List Byte) :=
  match headResult with
  | Except.error e => Except.error e
  | Except.ok (head, stream) =>
      match read_exact (head.content_length.getD 0) stream with
      | none => Except.error (HttpError.malformedRequest "incorrect content length")
      | some (body, rest) =>
          Except.ok
            ({ inner := { head := head, body := body, cookies := head.cookies }
               params := none },
             rest)

/-- `Request::body`: the request body as bytes. -/
def Request.body (r : Request) : List Byte :=
  r.inner.body

/-!
## Trace lemmas for the dispatch unit
-/

/-- The run events of a dispatch trace are exactly the due indices, in
order: the body runs precisely the jobs whose predicate matched `now`. -/
theorem runIndices_dispatchFrom (now : Timestamp) (i : Nat)
    (jobs : List ScheduledJob) :
    runIndices (dispatchFrom now i jobs) = dueIndicesFrom now i jobs := by
  induction jobs generalizing i with
  | nil => rfl
  | cons job rest ih =>
      by_cases h : job.should_run now
      · cases hs : job.schedule with
        | ok u =>
            cases u
            simp [dispatchFrom, dueIndicesFrom, runIndices, runIdx, h, hs,
              List.filterMap_append, ← ih (i + 1)]
        | error e =>
            simp [dispatchFrom, dueIndicesFrom, runIndices, runIdx, h, hs,
              List.filterMap_append, ← ih (i + 1)]
      · simp [dispatchFrom, dueIndicesFrom, runIndices, runIdx, h,
          List.filterMap_append, ← ih (i + 1)]

/-- Every due index is at least the starting index. -/
theorem le_of_mem_dueIndicesFrom (now : Timestamp) (i k : Nat)
    (jobs : List ScheduledJob) (h : k ∈ dueIndicesFrom now i jobs) : i ≤ k := by
  induction jobs generalizing i with
  | nil => simp [dueIndicesFrom] at h
  | cons job rest ih =>
      simp only [dueIndicesFrom, List.mem_append] at h
      rcases h with h | h
      · by_cases hd : job.should_run now
        · simp [hd] at h
          omega
        · simp [hd] at h
      · have := ih (i + 1) h
        omega

/-- The due indices are strictly increasing: due jobs are listed in
registration order. -/
theorem pairwise_dueIndicesFrom (now : Timestamp) (i : Nat)
    (jobs : List ScheduledJob) :
    List.Pairwise (· < ·) (dueIndicesFrom now i jobs) := by
  induction jobs generalizing i with
  | nil => simp [dueIndicesFrom]
  | cons job rest ih =>
      by_cases hd : job.should_run now
      · simp only [dueIndicesFrom, hd, if_pos, List.singleton_append,
          List.pairwise_cons]
        refine ⟨fun k hk => ?_, ih (i + 1)⟩
        have := le_of_mem_dueIndicesFrom now (i + 1) k rest hk
        omega
      · simpa [dueIndicesFrom, hd] using ih (i + 1)

/-- Membership in the due-set: index `i + d` is due iff the job at offset
`d` exists and its predicate matches `now`. -/
theorem mem_dueIndicesFrom (now : Timestamp) (i k : Nat)
    (jobs : List ScheduledJob) :
    k ∈ dueIndicesFrom now i jobs ↔
      ∃ d job, jobs[d]? = some job ∧ k = i + d ∧ job.should_run now = true := by
  induction jobs generalizing i with
  | nil => simp [dueIndicesFrom]
  | cons job rest ih =>
      simp only [dueIndicesFrom, List.mem_append]
      constructor
      · intro h
        rcases h with h | h
        · by_cases hd : job.should_run now
          · simp [hd] at h
            exact ⟨0, job, by simp, by omega, hd⟩
          · simp [hd] at h
        · rcases (ih (i + 1)).1 h with ⟨d, j, hj, hk, hdue⟩
          exact ⟨d + 1, j, by simpa using hj, by omega, hdue⟩
      · rintro ⟨d, j, hj, hk, hdue⟩
        cases d with
        | zero =>
            left
            simp at hj
            subst hj
            simp [hdue]
            omega
        | succ d =>
            right
            simp at hj
            exact (ih (i + 1)).2 ⟨d, j, hj, by omega, hdue⟩

/-- Every evaluation event of a dispatch trace carries the single captured
timestamp `now`, and its recorded due bit is exactly a fresh evaluation of
the job's predicate at `now`. -/
theorem eval_mem_dispatchFrom (now t : Timestamp) (i k : Nat) (b : Bool)
    (jobs : List ScheduledJob)
    (h : TickEvent.eval k t b ∈ dispatchFrom now i jobs) :
    t = now ∧ ∃ d job, jobs[d]? = some job ∧ k = i + d ∧
      b = job.should_run now := by
  induction jobs generalizing i with
  | nil => simp [dispatchFrom] at h
  | cons job rest ih =>
      simp only [dispatchFrom, List.mem_cons, List.mem_append] at h
      rcases h with h | h | h
      · cases h
        exact ⟨rfl, 0, job, by simp, by omega, rfl⟩
      · by_cases hd : job.should_run now
        · cases hs : job.schedule with
          | ok u => cases u; simp [hd, hs] at h
          | error e => simp [hd, hs] at h
        · simp [hd] at h
      · rcases ih (i + 1) h with ⟨ht, d, j, hj, hk, hb⟩
        exact ⟨ht, d + 1, j, by simpa using hj, by omega, hb⟩

/-- Every registered job's due-ness is checked in every dispatch unit: the
job at offset `d` produces its evaluation event at the captured `now`. -/
theorem eval_mem_of_getElem (now : Timestamp) (i d : Nat)
    (jobs : List ScheduledJob) (job : ScheduledJob)
    (hj : jobs[d]? = some job) :
    TickEvent.eval (i + d) now (job.should_run now) ∈ dispatchFrom now i jobs := by
  induction jobs generalizing i d with
  | nil => simp at hj
  | cons j rest ih =>
      cases d with
      | zero =>
          simp at hj
          subst hj
          simp [dispatchFrom]
      | succ d =>
          simp at hj
          have := ih (i + 1) d hj
          simp only [dispatchFrom, List.mem_cons, List.mem_append]
          right; right
          have heq : i + 1 + d = i + (d + 1) := by omega
          rwa [heq] at this

/-- A due job's evaluation is immediately followed by its completed run in
the trace: the pair is a sublist of the dispatch trace, so the evaluation
precedes the run and the run's outcome is the job's `schedule()` result. -/
theorem evalRun_sublist_dispatchFrom (now : Timestamp) (i d : Nat)
    (jobs : List ScheduledJob) (job : ScheduledJob)
    (hj : jobs[d]? = some job) (hdue : job.should_run now = true) :
    List.Sublist
      [TickEvent.eval (i + d) now true, TickEvent.run (i + d) job.schedule]
      (dispatchFrom now i jobs) := by
  induction jobs generalizing i d with
  | nil => simp at hj
  | cons j rest ih =>
      cases d with
      | zero =>
          simp at hj
          subst hj
          simp only [dispatchFrom, hdue, if_pos, Nat.add_zero]
          exact (List.cons_sublist_cons.2
            (List.cons_sublist_cons.2 (List.nil_sublist _)))
      | succ d =>
          simp at hj
          have := ih (i + 1) d hj
          have heq : i + 1 + d = i + (d + 1) := by omega
          rw [heq] at this
          refine this.trans ?_
          simp only [dispatchFrom]
          exact (List.sublist_append_right _ _).trans (List.sublist_cons_self _ _)

/-- A due job whose run fails produces a diagnostics-sink report in the same
trace, tagged with its diagnostic name and the failure. -/
theorem log_mem_dispatchFrom (now : Timestamp) (i d : Nat)
    (jobs : List ScheduledJob) (job : ScheduledJob) (e : JobError)
    (hj : jobs[d]? = some job) (hdue : job.should_run now = true)
    (herr : job.schedule = Except.error e) :
    TickEvent.log (i + d) job.jobRef.job_name e ∈ dispatchFrom now i jobs := by
  induction jobs generalizing i d with
  | nil => simp at hj
  | cons j rest ih =>
      cases d with
      | zero =>
          simp at hj
          subst hj
          simp [dispatchFrom, hdue, herr]
      | succ d =>
          simp at hj
          have := ih (i + 1) d hj
          have heq : i + 1 + d = i + (d + 1) := by omega
          rw [heq] at this
          simp only [dispatchFrom, List.mem_cons, List.mem_append]
          right; right
          exact this

/-!
## The clock loop as a state machine
-/

/-- Closed form of the loop state after `n` iterations: the clock (and its
job list) is unchanged, `n` ticks have fired, tick `k` spawned exactly one
dispatch unit capturing timestamp `ts k` and the shared job list, and the
loop has not returned. -/
theorem Clock.run_eq (c : Clock) (ts : Nat → Timestamp) (n : Nat) :
    Clock.run c ts n =
      { clock := c
        tick := n
        spawned := (List.range n).map
          (fun k => ⟨ts k, c.jobs, dispatchTick (ts k) c.jobs⟩)
        returned := none } := by
  induction n with
  | zero => rfl
  | succ n ih => simp [Clock.run, Clock.step, ih, List.range_succ]

/-!
## Concrete instances used by the witnesses and the counterexample
-/

/-- A scheduled job whose predicate matches every instant and whose
executor always succeeds. -/
def okJob (name : String) : ScheduledJob :=
  { job := { job := { execute_async := fun _ => Except.ok (), job_name := name } }
    args := "{}"
    cron := { fires := fun _ => true } }

/-- The failure produced by the demo failing executor. -/
def demoErr : JobError := { message := "boom" }

/-- A scheduled job whose predicate matches every instant and whose
executor always fails with `demoErr`. -/
def failJob (name : String) : ScheduledJob :=
  { job := { job := { execute_async := fun _ => Except.error demoErr, job_name := name } }
    args := "{}"
    cron := { fires := fun _ => true } }

/-- Two always-due, always-succeeding jobs. -/
def demoJobs2 : List ScheduledJob := [okJob "a", okJob "b"]

/-- Three always-due jobs, the second of which always fails. -/
def demoJobs3 : List ScheduledJob := [okJob "a", failJob "b", okJob "c"]

/-- A clock over the three demo jobs. -/
def demoClock3 : Clock := { jobs := demoJobs3 }

/-- A demo time source: tick `k` fires at instant `k`. -/
def demoTs : Nat → Timestamp := fun k => (k : Int)

/-- The full trace of one demo tick over the three demo jobs: every job is
evaluated at the captured instant, the failing job's error is caught and
logged under its name, and the following job still runs. -/
theorem dispatchTick_demoJobs3 : dispatchTick 0 demoJobs3 =
    [TickEvent.eval 0 0 true, TickEvent.run 0 (Except.ok ()),
     TickEvent.eval 1 0 true, TickEvent.run 1 (Except.error demoErr),
     TickEvent.log 1 "b" demoErr,
     TickEvent.eval 2 0 true, TickEvent.run 2 (Except.ok ())] := by decide

/-!
## Claims
-/

/-- C1: For every tick `k` and every registered job list, a job failure is
caught inside that tick's dispatch unit and reported to the diagnostics sink
tagged with the job's diagnostic name, while every due job of every tick --
including jobs after a failing one and all later ticks -- still gets its
due-check and completed run; the loop itself keeps ticking (`tick = n`) and
never sees the failure. -/
theorem clock_job_failure_isolated (c : Clock) (ts : Nat → Timestamp)
    (n k : Nat) (hk : k < n)
    (i : Nat) (job : ScheduledJob) (hj : c.jobs[i]? = some job)
    (hdue : job.should_run (ts k) = true) :
    (Clock.run c ts n).tick = n ∧
    (Clock.run c ts n).spawned[k]? =
      some ⟨ts k, c.jobs, dispatchTick (ts k) c.jobs⟩ ∧
    TickEvent.run i job.schedule ∈ dispatchTick (ts k) c.jobs ∧
    ∀ e, job.schedule = Except.error e →
      TickEvent.log i job.jobRef.job_name e ∈ dispatchTick (ts k) c.jobs := by
  refine ⟨by rw [Clock.run_eq], ?_, ?_, ?_⟩
  · rw [Clock.run_eq]
    simp [hk]
  · have hsub := evalRun_sublist_dispatchFrom (ts k) 0 i c.jobs job hj hdue
    have hmem : TickEvent.run (0 + i) job.schedule ∈ dispatchFrom (ts k) 0 c.jobs :=
      hsub.subset (by simp)
    simpa [dispatchTick] using hmem
  · intro e he
    have := log_mem_dispatchFrom (ts k) 0 i c.jobs job e hj hdue he
    simpa [dispatchTick] using this

/-- C1 witness: three always-due jobs where the second always fails; on
tick 1 the third job's run still happens and succeeds, and the second job's
failure is logged under its name. -/
theorem clock_job_failure_isolated_witness :
    TickEvent.run 2 (Except.ok ()) ∈ dispatchTick (demoTs 1) demoClock3.jobs ∧
    TickEvent.log 1 "b" demoErr ∈ dispatchTick (demoTs 1) demoClock3.jobs :=
  ⟨(clock_job_failure_isolated demoClock3 demoTs 2 1 (by decide) 2
      (okJob "c") rfl rfl).2.2.1,
   (clock_job_failure_isolated demoClock3 demoTs 2 1 (by decide) 1
      (failJob "b") rfl rfl).2.2.2 demoErr rfl⟩

/-- C2: in any tick, every due-ness evaluation event carries the single
captured timestamp `now`, and two registered jobs with equivalent predicates
are either both in the tick's run set or both outside it. -/
theorem tick_single_timestamp_consistent_dueness (now : Timestamp)
    (jobs : List ScheduledJob) (i j : Nat) (ji jj : ScheduledJob)
    (hi : jobs[i]? = some ji) (hj : jobs[j]? = some jj)
    (hequiv : ∀ t, ji.should_run t = jj.should_run t) :
    (∀ k t b, TickEvent.eval k t b ∈ dispatchTick now jobs → t = now) ∧
    (i ∈ runIndices (dispatchTick now jobs) ↔
      j ∈ runIndices (dispatchTick now jobs)) := by
  constructor
  · intro k t b hmem
    exact (eval_mem_dispatchFrom now t 0 k b jobs hmem).1
  · simp only [dispatchTick, runIndices_dispatchFrom]
    constructor
    · intro hm
      rcases (mem_dueIndicesFrom now 0 i jobs).1 hm with ⟨d, job, hjd, hk, hdue⟩
      have hdi : d = i := by omega
      subst hdi
      rw [hi] at hjd
      cases hjd
      exact (mem_dueIndicesFrom now 0 j jobs).2
        ⟨j, jj, hj, by omega, by rw [← hequiv now]; exact hdue⟩
    · intro hm
      rcases (mem_dueIndicesFrom now 0 j jobs).1 hm with ⟨d, job, hjd, hk, hdue⟩
      have hdj : d = j := by omega
      subst hdj
      rw [hj] at hjd
      cases hjd
      exact (mem_dueIndicesFrom now 0 i jobs).2
        ⟨i, ji, hi, by omega, by rw [hequiv now]; exact hdue⟩

/-- C2 witness: two jobs with the same always-true predicate at instant 0
share the captured timestamp in every evaluation event and are both due. -/
theorem tick_single_timestamp_consistent_dueness_witness :
    (∀ k t b, TickEvent.eval k t b ∈ dispatchTick 0 demoJobs2 → t = 0) ∧
    (0 ∈ runIndices (dispatchTick 0 demoJobs2) ↔
      1 ∈ runIndices (dispatchTick 0 demoJobs2)) :=
  tick_single_timestamp_consistent_dueness 0 demoJobs2 0 1
    (okJob "a") (okJob "b") rfl rfl (fun _ => rfl)

/-- C3 counterexample: with two always-due jobs, the first job's run is
dispatched before the second job's due-ness is evaluated, so it is false
that every due-ness evaluation of the tick completes before any job of the
tick is dispatched. -/
theorem tick_eval_interleaves_dispatch_counterexample :
    (okJob "a").should_run 0 = true ∧ (okJob "b").should_run 0 = true ∧
    allEvalsPrecedeAllRuns (dispatchTick 0 demoJobs2) = false := by decide

/-- C3 amended: due-ness evaluation interleaves with dispatch (each due
job's own evaluation immediately precedes its run), and the tick's run set
is nevertheless deterministically the pure due-set of the single captured
timestamp over the job list. -/
theorem tick_due_set_deterministic (now : Timestamp)
    (jobs : List ScheduledJob) (i : Nat) (job : ScheduledJob)
    (hj : jobs[i]? = some job) (hdue : job.should_run now = true) :
    runIndices (dispatchTick now jobs) = dueIndices now jobs ∧
    List.Sublist [TickEvent.eval i now true, TickEvent.run i job.schedule]
      (dispatchTick now jobs) := by
  constructor
  · simpa [dispatchTick, dueIndices] using runIndices_dispatchFrom now 0 jobs
  · have := evalRun_sublist_dispatchFrom now 0 i jobs job hj hdue
    simpa [dispatchTick] using this

/-- C3 amended witness: for the first demo job at instant 0, its evaluation
precedes its own run and the run set is the due-set. -/
theorem tick_due_set_deterministic_witness :
    runIndices (dispatchTick 0 demoJobs2) = dueIndices 0 demoJobs2 ∧
    List.Sublist [TickEvent.eval 0 0 true, TickEvent.run 0 (Except.ok ())]
      (dispatchTick 0 demoJobs2) :=
  tick_due_set_deterministic 0 demoJobs2 0 (okJob "a") rfl rfl

/-- C4: within one tick's dispatch unit the due jobs run strictly
sequentially in registration (list) order: the completed run events are
exactly the due indices in order, and their indices are strictly
increasing, so an earlier job's run has completed (or failed) before a
later job's run appears in the trace; the trace of a single dispatch unit
is a sequential interleaving-free list, so no two jobs of the same tick
execute concurrently. -/
theorem tick_jobs_run_sequentially_in_order (now : Timestamp)
    (jobs : List ScheduledJob) :
    runIndices (dispatchTick now jobs) = dueIndices now jobs ∧
    List.Pairwise (· < ·) (runIndices (dispatchTick now jobs)) := by
  constructor
  · simpa [dispatchTick, dueIndices] using runIndices_dispatchFrom now 0 jobs
  · have := pairwise_dueIndicesFrom now 0 jobs
    simpa [dispatchTick, runIndices_dispatchFrom] using this

/-- C5: each tick dispatches exactly one spawned unit, and the timer
timeline is decoupled from job execution: the instants at which the `n`
ticks fire are exactly the time source's schedule, and they are identical
for any two clocks (in particular for clocks whose jobs sleep, fail, or do
nothing), so the jobs' execution never delays the next tick.  Concurrency
itself is not observable in this embedding; decoupling is captured by the
loop state never depending on a spawned unit's execution. -/
theorem tick_timer_not_blocked_by_jobs (c c2 : Clock) (ts : Nat → Timestamp)
    (n : Nat) :
    (Clock.run c ts n).spawned.length = n ∧
    (Clock.run c ts n).spawned.map DispatchUnit.now = (List.range n).map ts ∧
    (Clock.run c ts n).spawned.map DispatchUnit.now =
      (Clock.run c2 ts n).spawned.map DispatchUnit.now := by
  refine ⟨?_, ?_, ?_⟩ <;> simp [Clock.run_eq, List.map_map, Function.comp]

/-- C6: the loop never returns -- after any number of iterations, and for
any job behavior, `run` has produced no return value, and a single step
never sets one; job failures are thus never observable through `run`'s
result. -/
theorem clock_run_never_returns (c : Clock) (ts : Nat → Timestamp) (n : Nat) :
    (Clock.run c ts n).returned = none ∧
    ∀ s : ClockState, (Clock.step ts s).returned = s.returned := by
  exact ⟨by rw [Clock.run_eq], fun s => rfl⟩

/-- C7: the job list is frozen at construction: after any number of ticks
the clock still holds the very list it was built with, and every spawned
dispatch unit was handed that same list. -/
theorem clock_jobs_frozen (c : Clock) (ts : Nat → Timestamp) (n : Nat) :
    (Clock.run c ts n).clock.jobs = c.jobs ∧
    ∀ u ∈ (Clock.run c ts n).spawned, u.jobs = c.jobs := by
  rw [Clock.run_eq]
  refine ⟨rfl, ?_⟩
  intro u hu
  simp only [List.mem_map, List.mem_range] at hu
  rcases hu with ⟨k, hk, rfl⟩
  rfl

/-- C7 witness: the unit spawned at tick 0 of the demo clock carries the
clock's own job list. -/
theorem clock_jobs_frozen_witness :
    DispatchUnit.jobs
      ⟨demoTs 0, demoClock3.jobs, dispatchTick (demoTs 0) demoClock3.jobs⟩ =
      demoClock3.jobs :=
  (clock_jobs_frozen demoClock3 demoTs 2).2 _
    (by rw [Clock.run_eq]; exact List.mem_map.2 ⟨0, by simp, rfl⟩)

/-- C8: due-ness evaluation is deterministic, pure and total: the due bit
recorded by the dispatch unit's (first) evaluation coincides with a fresh
re-evaluation of the same predicate at the same captured instant, every
evaluation event carries that instant, and evaluating `should_run` is a
total function whose repeated evaluation at the same (predicate,
timestamp) pair yields the same boolean. -/
theorem should_run_pure_deterministic (now t : Timestamp)
    (jobs : List ScheduledJob) (k : Nat) (b : Bool)
    (he : TickEvent.eval k t b ∈ dispatchTick now jobs) :
    (∀ s : ScheduledJob, s.should_run t = s.should_run t) ∧
    t = now ∧
    ∃ job, jobs[k]? = some job ∧ b = job.should_run now := by
  rcases eval_mem_dispatchFrom now t 0 k b jobs he with ⟨ht, d, job, hj, hk, hb⟩
  have hdk : d = k := by omega
  subst hdk
  exact ⟨fun s => rfl, ht, job, hj, hb⟩

/-- C8 witness: the evaluation event of the first demo job re-evaluates to
the same boolean. -/
theorem should_run_pure_deterministic_witness :
    (∀ s : ScheduledJob, s.should_run 0 = s.should_run 0) ∧
    (0 : Timestamp) = 0 ∧
    ∃ job, demoJobs2[0]? = some job ∧ true = job.should_run 0 :=
  should_run_pure_deterministic 0 0 demoJobs2 0 true (by decide)

/-- C9: with a declared `Content-Length` of `n`, `Request::read` consumes
exactly the next `n` stream bytes as the body: on a stream holding at least
`n` bytes it succeeds, the returned request's `body()` is exactly those `n`
bytes and the rest of the stream is untouched; on a stream holding fewer
than `n` bytes it fails with the malformed-request error and produces no
request. -/
theorem request_read_exact_content_length (head : Head) (stream : List Byte)
    (n : Nat) (hn : head.content_length = some n) :
    (n ≤ stream.length →
      ∃ req, Request.read (Except.ok (head, stream)) =
          Except.ok (req, stream.drop n) ∧
        req.body = stream.take n ∧ req.body.length = n) ∧
    (stream.length < n →
      Request.read (Except.ok (head, stream)) =
        Except.error (HttpError.malformedRequest "incorrect content length")) := by
  constructor
  · intro hle
    refine ⟨{ inner := { head := head, body := stream.take n
                         cookies := head.cookies }
              params := none }, ?_, rfl, ?_⟩
    · simp [Request.read, read_exact, hn, hle]
    · simp [Request.body]
      omega
  · intro hlt
    have hnot : ¬ n ≤ stream.length := by omega
    simp [Request.read, read_exact, hn, hnot]

/-- C9 witness: a declared length of 3 over a 4-byte stream yields exactly
the first 3 bytes as body and leaves the fourth; the same declared length
over a 2-byte stream is a malformed request. -/
theorem request_read_exact_content_length_witness :
    (∃ req, Request.read (Except.ok (Head.mk (some 3) [], [10, 20, 30, 40])) =
        Except.ok (req, [40]) ∧
      req.body = [10, 20, 30] ∧ req.body.length = 3) ∧
    Request.read (Except.ok (Head.mk (some 3) [], [1, 2])) =
      Except.error (HttpError.malformedRequest "incorrect content length") :=
  ⟨(request_read_exact_content_length (Head.mk (some 3) []) [10, 20, 30, 40] 3
      rfl).1 (by decide),
   (request_read_exact_content_length (Head.mk (some 3) []) [1, 2] 3
      rfl).2 (by decide)⟩

/-- C10: with no declared `Content-Length`, `Request::read` treats the
length as zero: it succeeds, consumes no body bytes from the stream, and
the returned request's `body()` is empty. -/
theorem request_read_no_content_length (head : Head) (stream : List Byte)
    (hn : head.content_length = none) :
    ∃ req, Request.read (Except.ok (head, stream)) = Except.ok (req, stream) ∧
      req.body = [] := by
  refine ⟨{ inner := { head := head, body := [], cookies := head.cookies }
            params := none }, ?_, rfl⟩
  simp [Request.read, read_exact, hn]

/-- C10 witness: a head without `Content-Length` over a 2-byte stream
succeeds with an empty body and the stream intact. -/
theorem request_read_no_content_length_witness :
    ∃ req, Request.read (Except.ok (Head.mk none [], [7, 8])) =
        Except.ok (req, [7, 8]) ∧ req.body = [] :=
  request_read_no_content_length (Head.mk none []) [7, 8] rfl

end Rwf
